import Mathlib

/-!
Verification development for the glean.js telemetry SDK core.

The definitions below are a shallow embedding of the TypeScript sources:
the metrics database (src/glean/src/core/metrics/database.ts), the metric
types uuid, quantity and boolean (src/glean/src/core/metrics/types/),
the task dispatchers (src/glean/src/core/dispatcher/async.ts) and the
orchestrator upload-disable path (src/glean/src/core/glean/async.ts).

JavaScript objects are embedded as association lists with unique keys and
insertion order preserved; JavaScript values reachable from the metrics
stores are embedded as the JValue inductive. The storage adapter itself
(core/storage/utils.ts) is not under src/ and is modelled from the spec
where noted.
-/

namespace GleanSpec

/-- Embedding of the JSON values a glean.js store can hold. Numbers are
embedded as integers: every value the code under scrutiny stores is an
integer, a string, a boolean or an object. -/
inductive JValue where
  | i (n : Int)
  | s (v : String)
  | b (v : Bool)
  | o (entries : List (String × JValue))

/-- A JavaScript object: association list, insertion order preserved. -/
abbrev JObject := List (String × JValue)

/-- Property read on a JavaScript object: first binding wins. -/
def objGet (es : JObject) (k : String) : Option JValue :=
  match es with
  | [] => none
  | (k1, v1) :: rest => if k1 = k then some v1 else objGet rest k

/-- Property write on a JavaScript object: replaces the binding in place
when the key is present, appends otherwise. -/
def objSet (es : JObject) (k : String) (v : JValue) : JObject :=
  match es with
  | [] => [(k, v)]
  | (k1, v1) :: rest => if k1 = k then (k, v) :: rest else (k1, v1) :: objSet rest k v

/-- Property removal on a JavaScript object. -/
def objDel (es : JObject) (k : String) : JObject :=
  match es with
  | [] => []
  | (k1, v1) :: rest => if k1 = k then objDel rest k else (k1, v1) :: objDel rest k

/-- Walks a value along a key path, refusing to traverse non-objects. -/
def jGet (v : JValue) (idx : List String) : Option JValue :=
  match idx with
  | [] => some v
  | k :: rest =>
    match v with
    | .o es =>
      match objGet es k with
      | some v1 => jGet v1 rest
      | none => none
    | _ => none

/-- Modelled from the spec: the storage adapter get operation
(core/storage/utils.ts getValueFromNestedObject is not under src/).
Returns the subvalue, or none when the path does not exist or the
stored root is empty. -/
def storeGet (root : JObject) (idx : List String) : Option JValue :=
  match idx with
  | [] => if root.isEmpty then none else some (.o root)
  | _ => jGet (.o root) idx

/-- Modelled from the spec: the storage adapter delete operation
(core/storage/utils.ts deleteKeyFromNestedObject is not under src/).
A path that cannot be traversed throws; the caller logs and proceeds,
which the model renders as returning the store unchanged. -/
def jDelete (root : JObject) (idx : List String) : JObject :=
  match idx with
  | [] => []
  | [k] => objDel root k
  | k :: rest =>
    match objGet root k with
    | some (.o sub) => objSet root k (.o (jDelete sub rest))
    | _ => root

/-- Modelled from the spec: the storage adapter update operation
(core/storage/utils.ts updateNestedObject is not under src/). Creates
intermediate objects as needed; a path whose strict prefix collides with
a non-object throws, rendered as none. -/
def jUpdate (root : JObject) (idx : List String) (f : Option JValue → JValue) :
    Option JObject :=
  match idx with
  | [] => none
  | [k] => some (objSet root k (f (objGet root k)))
  | k :: rest =>
    match objGet root k with
    | some (.o sub) => (jUpdate sub rest f).map (fun sub1 => objSet root k (.o sub1))
    | some _ => none
    | none => (jUpdate [] rest f).map (fun sub1 => objSet root k (.o sub1))

/-- The store update as the database sees it: on error the caller logs
and proceeds, leaving the store unchanged. -/
def storeUpdate (root : JObject) (idx : List String) (f : Option JValue → JValue) :
    JObject :=
  (jUpdate root idx f).getD root

/-! String helpers embedding the JavaScript string operations the sources
use: startsWith, includes, split with limit 2, and the loose UUID regex. -/

/-- Embedding of JavaScript String.startsWith. -/
def strStartsWith (p s : String) : Bool :=
  p.toList.isPrefixOf s.toList

/-- Embedding of JavaScript String.includes for a single character. -/
def strContains (s : String) (c : Char) : Bool :=
  decide (c ∈ s.toList)

/-- Embedding of the JavaScript call id.split(sep, 2): the text before the
first separator, and, when a separator occurs, the text between the first
and the second separator. -/
def jsSplit2 (sep : Char) (s : String) : String × Option String :=
  let cs := s.toList
  let first := cs.takeWhile (fun c => !(c == sep))
  match cs.dropWhile (fun c => !(c == sep)) with
  | [] => (String.mk first, none)
  | _ :: tail => (String.mk first, some (String.mk (tail.takeWhile (fun c => !(c == sep)))))

/-- Hexadecimal digit, either case, as in the character class of the loose
UUID regex of core/metrics/types/uuid.ts. -/
def isHexDigit (c : Char) : Bool :=
  ("0123456789abcdefABCDEF".toList).contains c

/-- Splits a character list at every occurrence of sep. -/
def splitChar (sep : Char) : List Char → List Char → List (List Char)
  | acc, [] => [acc.reverse]
  | acc, c :: cs => if c = sep then acc.reverse :: splitChar sep [] cs else splitChar sep (c :: acc) cs

/-- Embedding of the loose UUID-shape regex of core/metrics/types/uuid.ts:
five dash-separated groups of hex digits of lengths 8, 4, 4, 4 and 12,
case insensitive. A string matches the anchored regex exactly when its
dash-split groups have these lengths and hold only hex digits. -/
def uuidRegexMatch (s : String) : Bool :=
  let groups := splitChar '-' [] s.toList
  groups.map List.length = [8, 4, 4, 4, 12] && groups.all (fun g => g.all isHexDigit)

/-! The metric model. The common metric data and the base MetricType class
live in core/metrics/index.ts which is not under src/; the fields and the
identifier and shouldRecord rules are modelled from the spec. -/

/-- Metric lifetimes, from core/metrics/lifetime.ts. -/
inductive Lifetime where
  | user
  | ping
  | application
deriving DecidableEq

/-- Modelled from the spec: the common metric data every metric type
carries (core/metrics/index.ts is not under src/): kind tag, category and
name, lifetime, target pings and the disabled flag. -/
structure MetricType where
  category : String
  name : String
  type : String
  lifetime : Lifetime
  sendInPings : List String
  disabled : Bool

/-- Modelled from the spec: the canonical identifier is category.name and
an empty category elides the dot. -/
def MetricType.identifier (m : MetricType) : String :=
  if m.category = "" then m.name else m.category ++ "." ++ m.name

/-- Modelled from the spec: a metric records only when upload is enabled
and the metric is not disabled. -/
def MetricType.shouldRecord (m : MetricType) (uploadEnabled : Bool) : Bool :=
  uploadEnabled && !m.disabled

/-- The recording error types of core/error.ts. -/
inductive ErrorType where
  | invalidValue
  | invalidLabel
  | invalidState
  | invalidOverflow
  | invalidType
deriving DecidableEq

/-! The metrics database, from core/metrics/database.ts. One store per
lifetime; the layout of each store is ping / kind / identifier / payload.
The internal-representation validator (validateMetricInternalRepresentation
of core/metrics/utils.ts, not under src/) is passed in as a parameter. -/

/-- The full identifier marking reserved internal metrics, from
core/metrics/database.ts. -/
def reservedIdPref : String := "glean.reserved#"

/-- The three lifetime stores of the metrics database. -/
structure MetricsDatabase where
  userStore : JObject
  pingStore : JObject
  appStore : JObject

/-- The store for a given lifetime (chooseStore of database.ts). -/
def MetricsDatabase.chooseStore (db : MetricsDatabase) (lt : Lifetime) : JObject :=
  match lt with
  | .user => db.userStore
  | .ping => db.pingStore
  | .application => db.appStore

/-- Writes back the store for a given lifetime. -/
def MetricsDatabase.withStore (db : MetricsDatabase) (lt : Lifetime) (st : JObject) :
    MetricsDatabase :=
  match lt with
  | .user => { db with userStore := st }
  | .ping => { db with pingStore := st }
  | .application => { db with appStore := st }

/-- MetricsDatabase.transform of database.ts: a no-op when the metric is
disabled, otherwise applies the transformation under every target ping of
the store selected by the lifetime. -/
def MetricsDatabase.transform (db : MetricsDatabase) (metric : MetricType)
    (transformFn : Option JValue → JValue) : MetricsDatabase :=
  if metric.disabled then db
  else
    let storageKey := metric.identifier
    let store := metric.sendInPings.foldl
      (fun st ping => storeUpdate st [ping, metric.type, storageKey] transformFn)
      (db.chooseStore metric.lifetime)
    db.withStore metric.lifetime store

/-- MetricsDatabase.record of database.ts: transform with a constant. -/
def MetricsDatabase.record (db : MetricsDatabase) (metric : MetricType) (value : JValue) :
    MetricsDatabase :=
  db.transform metric (fun _ => value)

/-- MetricsDatabase.getMetric of database.ts: reads the persisted value;
a stored value failing the kind validator is deleted and none returned. -/
def MetricsDatabase.getMetric (validate : String → JValue → Bool)
    (db : MetricsDatabase) (ping : String) (metric : MetricType) :
    Option JValue × MetricsDatabase :=
  let store := db.chooseStore metric.lifetime
  let storageKey := metric.identifier
  let value := storeGet store [ping, metric.type, storageKey]
  match value with
  | some v =>
    if !(validate metric.type v) then
      (none, db.withStore metric.lifetime (jDelete store [ping, metric.type, storageKey]))
    else
      (some v, db)
  | none => (none, db)

/-- MetricsDatabase.clearAll of database.ts. -/
def MetricsDatabase.clearAll (_db : MetricsDatabase) : MetricsDatabase :=
  ⟨[], [], []⟩

/-- MetricsDatabase.clear of database.ts for a named ping. -/
def MetricsDatabase.clearPing (db : MetricsDatabase) (lt : Lifetime) (ping : String) :
    MetricsDatabase :=
  db.withStore lt (jDelete (db.chooseStore lt) [ping])

/-! The ping snapshot of database.ts: getCorrectedPingData, the merge loop
of getPingMetrics, processLabeledMetric and createMetricsPayload. -/

/-- The in-memory shape of one validated lifetime snapshot: kind to
identifier to internal value, insertion order preserved. -/
abbrev Metrics := List (String × JObject)

/-- Read of a kind section of a snapshot. -/
def mGet (m : Metrics) (t : String) : Option JObject :=
  match m with
  | [] => none
  | (t1, o1) :: rest => if t1 = t then some o1 else mGet rest t

/-- Write of a kind section of a snapshot, insertion order preserved. -/
def mSet (m : Metrics) (t : String) (o : JObject) : Metrics :=
  match m with
  | [] => [(t, o)]
  | (t1, o1) :: rest => if t1 = t then (t, o) :: rest else (t1, o1) :: mSet rest t o

/-- The inner loop of getCorrectedPingData of database.ts over the
identifiers of one kind: invalid values are deleted from the store, valid
ones are collected. Returns the corrected kind section and the store. -/
def correctKind (validate : String → JValue → Bool) (ping metricType : String) :
    List (String × JValue) → JObject → JObject → (JObject × JObject)
  | [], acc, store => (acc, store)
  | (metricId, v) :: rest, acc, store =>
    if !(validate metricType v) then
      correctKind validate ping metricType rest acc
        (jDelete store [ping, metricType, metricId])
    else
      correctKind validate ping metricType rest (objSet acc metricId v) store

/-- The outer loop of getCorrectedPingData of database.ts over the kinds
found for the ping: a kind section that is not an object is deleted. -/
def correctData (validate : String → JValue → Bool) (ping : String) :
    List (String × JValue) → Metrics → JObject → (Metrics × JObject)
  | [], acc, store => (acc, store)
  | (metricType, v) :: rest, acc, store =>
    match v with
    | .o metrics =>
      let (sect, store1) := correctKind validate ping metricType metrics [] store
      let acc1 := if sect.isEmpty then acc else mSet acc metricType sect
      correctData validate ping rest acc1 store1
    | _ =>
      correctData validate ping rest acc (jDelete store [ping, metricType])

/-- getCorrectedPingData of database.ts: validates one lifetime store for
a ping, deleting invalid entries and returning the corrected data. -/
def getCorrectedPingData (validate : String → JValue → Bool) (store : JObject)
    (ping : String) : Metrics × JObject :=
  match storeGet store [ping] with
  | none => ([], store)
  | some (.o data) => correctData validate ping data [] store
  | some _ => ([], jDelete store [ping])

/-- The property spread of a JavaScript value into an object literal:
objects contribute their entries, other values contribute none (a string
contributes indexed characters in JavaScript; no label key of interest is
a decimal index, so this is rendered as no entries). -/
def asObj (v : JValue) : JObject :=
  match v with
  | .o es => es
  | _ => []

/-- processLabeledMetric of database.ts: moves a stored id/label entry of
kind t under the labeled_t section of the snapshot, keeping other labels
already collected for the same id. -/
def processLabeledMetric (snapshot : Metrics) (metricType metricId : String)
    (metricData : JValue) : Metrics :=
  match mGet snapshot ("labeled_" ++ metricType) with
  | some sect =>
    match objGet sect (jsSplit2 '/' metricId).1 with
    | some existing =>
      mSet snapshot ("labeled_" ++ metricType)
        (objSet sect (jsSplit2 '/' metricId).1
          (.o (objSet (asObj existing) ((jsSplit2 '/' metricId).2.getD "") metricData)))
    | none =>
      mSet snapshot ("labeled_" ++ metricType)
        (objSet sect (jsSplit2 '/' metricId).1
          (.o [(((jsSplit2 '/' metricId).2.getD ""), metricData)]))
  | none =>
    mSet snapshot ("labeled_" ++ metricType)
      (objSet [] (jsSplit2 '/' metricId).1
        (.o [(((jsSplit2 '/' metricId).2.getD ""), metricData)]))

/-- One iteration of the merge loop of getPingMetrics of database.ts. -/
def mergeStep (resp : Metrics) (tr : String × String × JValue) : Metrics :=
  let (metricType, metricId, v) := tr
  if strStartsWith reservedIdPref metricId then resp
  else if strContains metricId '/' then processLabeledMetric resp metricType metricId v
  else mSet resp metricType (objSet ((mGet resp metricType).getD []) metricId v)

/-- One lifetime snapshot flattened into kind, identifier, value triples
in iteration order. -/
def triplesOf (data : Metrics) : List (String × String × JValue) :=
  data.flatMap (fun p => p.2.map (fun q => (p.1, q.1, q.2)))

/-- The merge loop of getPingMetrics of database.ts over one lifetime
snapshot. -/
def mergeData (resp : Metrics) (data : Metrics) : Metrics :=
  (triplesOf data).foldl mergeStep resp

/-- createMetricsPayload of database.ts with the per-kind payload
projection (createMetric of core/metrics/utils.ts is not under src/ and
is modelled from the spec as an arbitrary projection parameter): every
kind and identifier key is kept, every value is projected. -/
def createMetricsPayload (proj : String → JValue → JValue) (m : Metrics) : Metrics :=
  m.map (fun p => (p.1, p.2.map (fun q => (q.1, proj p.1 q.2))))

/-- getPingMetrics of database.ts: correct the three lifetime snapshots,
clear the ping lifetime when asked and data was found there, merge the
three snapshots skipping reserved identifiers and unfolding labeled
entries, and project the payloads; none when nothing was collected. -/
def MetricsDatabase.getPingMetrics (validate : String → JValue → Bool)
    (proj : String → JValue → JValue) (db : MetricsDatabase) (ping : String)
    (clearPingLifetimeData : Bool) : Option Metrics × MetricsDatabase :=
  let userRes := getCorrectedPingData validate db.userStore ping
  let pingRes := getCorrectedPingData validate db.pingStore ping
  let appRes := getCorrectedPingData validate db.appStore ping
  let pingStore2 :=
    if clearPingLifetimeData && !pingRes.1.isEmpty then jDelete pingRes.2 [ping]
    else pingRes.2
  let response := mergeData (mergeData (mergeData [] userRes.1) pingRes.1) appRes.1
  let db1 : MetricsDatabase := ⟨userRes.2, pingStore2, appRes.2⟩
  if response.isEmpty then (none, db1)
  else (some (createMetricsPayload proj response), db1)

/-- The stored kind, identifier, value triples the merge loop of
getPingMetrics visits: the three corrected lifetime snapshots flattened
in visit order (user, then ping, then application lifetime). -/
def pingTriples (validate : String → JValue → Bool) (db : MetricsDatabase)
    (ping : String) : List (String × String × JValue) :=
  triplesOf (getCorrectedPingData validate db.userStore ping).1 ++
  triplesOf (getCorrectedPingData validate db.pingStore ping).1 ++
  triplesOf (getCorrectedPingData validate db.appStore ping).1

/-! The uuid metric type, from core/metrics/types/uuid.ts. The Metric base
class constructor (core/metrics/metric.ts, not under src/) validates the
input and throws a MetricValidationError on failure; modelled as Except.
validateString (core/metrics/utils.ts, not under src/) is modelled from
the spec as succeeding on every string, since the embedding types the
input as a string already. -/

/-- UUIDMetric.validate of uuid.ts followed by the Metric constructor:
either the validated inner value or the recording error raised. -/
def UUIDMetric.tryNew (v : String) : Except ErrorType String :=
  if !(uuidRegexMatch v) then .error .invalidValue else .ok v

/-- InternalUUIDMetricType.set of uuid.ts. The generated UUID v4
(generateUUIDv4 of core/utils.ts, not under src/) is passed in as the gen
parameter. Returns the database and the recording errors recorded by the
error manager, in order. -/
def uuidSet (gen : String) (uploadEnabled : Bool) (db : MetricsDatabase)
    (m : MetricType) (value : String) : MetricsDatabase × List ErrorType :=
  if !(m.shouldRecord uploadEnabled) then (db, [])
  else
    let value := if value = "" then gen else value
    match UUIDMetric.tryNew value with
    | .ok inner => (db.record m (.s inner), [])
    | .error e => (db, [e])

/-! The quantity metric type, from core/metrics/types/quantity.ts.
Numbers are embedded as integers; the platform maximum is
Number.MAX_SAFE_INTEGER. -/

/-- Number.MAX_SAFE_INTEGER. -/
def maxSafeInteger : Int := 2 ^ 53 - 1

/-- QuantityMetric.validate of quantity.ts via validatePositiveInteger
(core/metrics/utils.ts, not under src/, modelled from the spec: a
non-negative integer), composed with the Metric constructor. -/
def QuantityMetric.tryNew (v : Int) : Except ErrorType Int :=
  if v < 0 then .error .invalidValue else .ok v

/-- InternalQuantityMetricType.setUndispatched of quantity.ts: skip when
not recording, record invalid_value for a negative value, saturate at the
platform maximum, then validate and persist. -/
def quantitySetUndispatched (uploadEnabled : Bool) (db : MetricsDatabase)
    (m : MetricType) (value : Int) : MetricsDatabase × List ErrorType :=
  if !(m.shouldRecord uploadEnabled) then (db, [])
  else if value < 0 then (db, [.invalidValue])
  else
    let value := if value > maxSafeInteger then maxSafeInteger else value
    match QuantityMetric.tryNew value with
    | .ok inner => (db.record m (.i inner), [])
    | .error e => (db, [e])

/-- InternalQuantityMetricType.setUndispatchedSync of quantity.ts; its
body performs the same steps as the asynchronous variant. -/
def quantitySetUndispatchedSync (uploadEnabled : Bool) (db : MetricsDatabase)
    (m : MetricType) (value : Int) : MetricsDatabase × List ErrorType :=
  if !(m.shouldRecord uploadEnabled) then (db, [])
  else if value < 0 then (db, [.invalidValue])
  else
    let value := if value > maxSafeInteger then maxSafeInteger else value
    match QuantityMetric.tryNew value with
    | .ok inner => (db.record m (.i inner), [])
    | .error e => (db, [e])

/-! The platform-dispatch routing of the dual-mode metric types: the
shared set methods of boolean.ts and quantity.ts pick the synchronous or
the asynchronous recording path from Context.isPlatformSync(). -/

/-- The two recording paths a dual-mode set method can take. -/
inductive RecordingPath where
  | syncPath
  | asyncPath
deriving DecidableEq

/-- InternalBooleanMetricType.set of boolean.ts: the branch taken as a
function of Context.isPlatformSync(). -/
def booleanSetRoute (isPlatformSync : Bool) : RecordingPath :=
  if isPlatformSync then .asyncPath else .syncPath

/-- InternalQuantityMetricType.set of quantity.ts: the branch taken as a
function of Context.isPlatformSync(). -/
def quantitySetRoute (isPlatformSync : Bool) : RecordingPath :=
  if isPlatformSync then .syncPath else .asyncPath

/-! The task dispatcher, from core/dispatcher/async.ts (both the Dispatcher
and the DispatcherSync classes live in that file). Tasks are embedded as
inert numeric labels; only the InitTask outcome influences control flow,
so it carries a success flag. -/

/-- The dispatcher states of core/dispatcher/shared.ts. The uninit
constructor embeds the Uninitialized state. -/
inductive DState where
  | uninit
  | idle
  | processing
  | stopped
  | shutdown
deriving DecidableEq

/-- The queued commands of core/dispatcher/shared.ts. Task-bearing
commands carry the task label; a TestTask also carries its resolver
label. -/
inductive Command where
  | task (id : Nat)
  | persistentTask (id : Nat)
  | initTask (id : Nat) (ok : Bool)
  | testTask (id : Nat) (rid : Nat)
  | stop
  | clear
  | shutdown
deriving DecidableEq

/-- The commands the Clear command keeps in the queue, from the filter in
the Clear case of execute. -/
def keepOnClear (c : Command) : Bool :=
  match c with
  | .persistentTask _ => true
  | .shutdown => true
  | _ => false

/-- The resolver labels of the TestTask commands of a queue, in order
(unblockTestResolvers of async.ts walks the queue in order). -/
def resolversOf (q : List Command) : List Nat :=
  q.filterMap (fun c => match c with | .testTask _ rid => some rid | _ => none)

/-- The task label of a task-bearing command. -/
def Command.taskId (c : Command) : Option Nat :=
  match c with
  | .task i => some i
  | .persistentTask i => some i
  | .initTask i _ => some i
  | .testTask i _ => some i
  | _ => none

/-- The observable events of one dispatcher execution. -/
inductive ExecEvent where
  | ran (id : Nat)
  | resolved (rid : Nat)
deriving DecidableEq

/-- Dispatcher.execute of async.ts, driven by fuel: pops commands from
oldest to newest. Stop leaves the rest of the queue and the Stopped state;
Shutdown resolves the pending test resolvers, empties the queue and locks
the dispatcher; Clear resolves the pending test resolvers and keeps only
PersistentTask and Shutdown commands; a failed InitTask runs clear (a
priority Clear pushed at the head) and shutdown (a Shutdown appended).
Returns the event trace, the remaining queue and the final state, the
latter still Processing when execution ended by draining the queue. -/
def executeRun (fuel : Nat) (q : List Command) : List ExecEvent × List Command × DState :=
  match fuel, q with
  | 0, q => ([], q, .processing)
  | _ + 1, [] => ([], [], .processing)
  | f + 1, c :: q =>
    match c with
    | .stop => ([], q, .stopped)
    | .shutdown => ((resolversOf q).map .resolved, [], .shutdown)
    | .clear =>
      let rest := executeRun f (q.filter keepOnClear)
      ((resolversOf q).map .resolved ++ rest.1, rest.2.1, rest.2.2)
    | .testTask i rid =>
      let rest := executeRun f q
      (.ran i :: .resolved rid :: rest.1, rest.2.1, rest.2.2)
    | .task i =>
      let rest := executeRun f q
      (.ran i :: rest.1, rest.2.1, rest.2.2)
    | .persistentTask i =>
      let rest := executeRun f q
      (.ran i :: rest.1, rest.2.1, rest.2.2)
    | .initTask i ok =>
      if ok then
        let rest := executeRun f q
        (.ran i :: rest.1, rest.2.1, rest.2.2)
      else
        let rest := executeRun f (.clear :: (q ++ [.shutdown]))
        (.ran i :: rest.1, rest.2.1, rest.2.2)

/-- The Dispatcher class state of async.ts. -/
structure DispatcherAsync where
  queue : List Command
  state : DState
  maxPreInitQueueSize : Nat

/-- Dispatcher.launchInternal of async.ts, the trigger included: refuse
when shut down; refuse a non-priority launch in the Uninitialized state
with a full queue; otherwise push (at the head for a priority task) and
trigger execution, which runs only from the Idle state. Returns whether
the command was queued, the new dispatcher and the events of any
execution triggered. -/
def DispatcherAsync.launchInternal (fuel : Nat) (d : DispatcherAsync) (cmd : Command)
    (priorityTask : Bool) : Bool × DispatcherAsync × List ExecEvent :=
  if d.state = .shutdown then (false, d, [])
  else if !priorityTask && d.state = .uninit && d.queue.length ≥ d.maxPreInitQueueSize then
    (false, d, [])
  else
    let q1 := if priorityTask then cmd :: d.queue else d.queue ++ [cmd]
    if d.state = .idle then
      let r := executeRun fuel q1
      let st1 := if r.2.2 = .processing then .idle else r.2.2
      (true, ⟨r.2.1, st1, d.maxPreInitQueueSize⟩, r.1)
    else
      (true, ⟨q1, d.state, d.maxPreInitQueueSize⟩, [])

/-- The DispatcherSync class state of async.ts: a second queue buffers
every command launched before the Context reports initialized. -/
structure DispatcherSyncMode where
  queue : List Command
  preInitQueue : List Command
  state : DState
  maxPreInitQueueSize : Nat

/-- DispatcherSync.launchInternal of async.ts, the trigger included: when
the Context is not initialized the command goes to the pre-init queue,
unconditionally and with success; afterwards the same checks as the
asynchronous dispatcher apply to the main queue. Triggered execution
drains the pre-init queue before the main queue. -/
def DispatcherSyncMode.launchInternal (ctxInit : Bool) (fuel : Nat)
    (d : DispatcherSyncMode) (cmd : Command) (priorityTask : Bool) :
    Bool × DispatcherSyncMode × List ExecEvent :=
  if !ctxInit then
    (true, ⟨d.queue, d.preInitQueue ++ [cmd], d.state, d.maxPreInitQueueSize⟩, [])
  else if d.state = .shutdown then (false, d, [])
  else if !priorityTask && d.state = .uninit && d.queue.length ≥ d.maxPreInitQueueSize then
    (false, d, [])
  else
    let q1 := if priorityTask then cmd :: d.queue else d.queue ++ [cmd]
    if d.state = .idle then
      let r := executeRun fuel (d.preInitQueue ++ q1)
      let st1 := if r.2.2 = .processing then .idle else r.2.2
      (true, ⟨r.2.1, [], st1, d.maxPreInitQueueSize⟩, r.1)
    else
      (true, ⟨q1, d.preInitQueue, d.state, d.maxPreInitQueueSize⟩, [])

/-! The orchestrator upload-disable flow, from core/glean/async.ts
(onUploadDisabled and clearMetrics). The collaborators that are not under
src/ (the ping submission internals, the upload manager queue, the
constants module) are modelled from the spec where noted. Dates are
embedded as abstract numeric timestamps. -/

/-- Modelled from the spec: the sentinel client identifier stored while
upload is disabled (core/constants.ts is not under src/). -/
def KNOWN_CLIENT_ID : String := "c0ffeec0-ffee-c0ff-eec0-ffeec0ffeec0"

/-- The name of the deletion-request ping. -/
def deletionRequestName : String := "deletion-request"

/-- The orchestrator-visible state: the upload flag, the three databases
(the metrics database split into the two reserved client-info metrics the
flow touches and the rest), the pending-pings storage and the upload
manager queue. -/
structure GleanState where
  uploadEnabled : Bool
  eventsDb : List JValue
  metricsOther : List (String × JValue)
  metricsClientId : Option String
  metricsFirstRunDate : Option Nat
  pingsDb : List String
  uploadQueue : List String

/-- The observable actions of the upload-disable flow, in order. -/
inductive OrchEvent where
  | submitPing (name : String) (reason : String)
  | clearUploadQueue
  | clearEventsDb
  | clearMetricsDb
  | clearPingsDb
  | setClientId (v : String)
  | setFirstRunDate (d : Nat)
deriving DecidableEq

/-- Modelled from the spec: an undispatched ping submission (the ping
assembly of core/pings/ is not under src/) hands the envelope to the
pings database and notifies the upload manager. The deletion-request ping
is submitted even while upload is disabled. -/
def submitUndispatched (name reason : String) (s : GleanState) :
    GleanState × List OrchEvent :=
  ({ s with pingsDb := s.pingsDb ++ [name], uploadQueue := s.uploadQueue ++ [name] },
   [.submitPing name reason])

/-- Modelled from the spec: clearPendingPingsQueue of the upload manager
(core/upload/ is not under src/) drops every enqueued job except a
deletion-request ping. -/
def clearPendingPingsQueue (s : GleanState) : GleanState × List OrchEvent :=
  ({ s with uploadQueue := s.uploadQueue.filter (fun n => n = deletionRequestName) },
   [.clearUploadQueue])

/-- The undispatched set of the reserved client_id uuid metric: a no-op
unless upload is enabled (the reserved metric is never disabled, so
shouldRecord reduces to the upload flag). -/
def clientIdSetUndispatched (v : String) (s : GleanState) : GleanState × List OrchEvent :=
  if s.uploadEnabled then ({ s with metricsClientId := some v }, [.setClientId v])
  else (s, [])

/-- The undispatched set of the reserved first_run_date datetime metric,
gated like the client_id set. -/
def firstRunDateSetUndispatched (d : Nat) (s : GleanState) : GleanState × List OrchEvent :=
  if s.uploadEnabled then ({ s with metricsFirstRunDate := some d }, [.setFirstRunDate d])
  else (s, [])

/-- clearMetrics of core/glean/async.ts: clear the upload manager queue,
read the stored first_run_date (falling back to the current date when the
read throws), clear the events, metrics and pings databases, briefly
enable upload so the reserved sets are not no-ops, store the sentinel
client_id, restore first_run_date, and leave upload disabled. -/
def clearMetricsFlow (now : Nat) (s : GleanState) : GleanState × List OrchEvent :=
  let (s1, ev1) := clearPendingPingsQueue s
  let firstRunDate := s1.metricsFirstRunDate.getD now
  let s2 := { s1 with eventsDb := [] }
  let s3 := { s2 with metricsOther := [], metricsClientId := none, metricsFirstRunDate := none }
  let s4 := { s3 with pingsDb := [] }
  let s5 := { s4 with uploadEnabled := true }
  let (s6, ev6) := clientIdSetUndispatched KNOWN_CLIENT_ID s5
  let (s7, ev7) := firstRunDateSetUndispatched firstRunDate s6
  let s8 := { s7 with uploadEnabled := false }
  (s8, ev1 ++ [.clearEventsDb, .clearMetricsDb, .clearPingsDb] ++ ev6 ++ ev7)

/-- onUploadDisabled of core/glean/async.ts: set the upload flag to
false, submit the deletion-request ping through the undispatched path,
then run clearMetrics. -/
def onUploadDisabled (at_init : Bool) (now : Nat) (s : GleanState) :
    GleanState × List OrchEvent :=
  let reason := if at_init then "at_init" else "set_upload_enabled"
  let s1 := { s with uploadEnabled := false }
  let (s2, ev2) := submitUndispatched deletionRequestName reason s1
  let (s3, ev3) := clearMetricsFlow now s2
  (s3, ev2 ++ ev3)

/-- Recognizer for the submission of a deletion-request ping. -/
def isDeletionSubmit (e : OrchEvent) : Bool :=
  match e with
  | .submitPing n _ => n = deletionRequestName
  | _ => false

/-- Recognizer for the database clearing events. -/
def isDbClear (e : OrchEvent) : Bool :=
  match e with
  | .clearEventsDb => true
  | .clearMetricsDb => true
  | .clearPingsDb => true
  | _ => false

/-- The task labels carried by the commands of a queue. -/
def taskIds (q : List Command) : List Nat :=
  q.filterMap Command.taskId

/-! Object lemmas. -/

theorem objGet_objSet_self (es : JObject) (k : String) (v : JValue) :
    objGet (objSet es k v) k = some v := by
  induction es with
  | nil => simp [objGet, objSet]
  | cons hd tl ih =>
    obtain ⟨k1, v1⟩ := hd
    by_cases h : k1 = k <;> simp [objGet, objSet, h, ih]

theorem objGet_objSet_ne (es : JObject) (k k1 : String) (v : JValue) (h : k1 ≠ k) :
    objGet (objSet es k v) k1 = objGet es k1 := by
  have hk : k ≠ k1 := Ne.symm h
  induction es with
  | nil => simp [objGet, objSet, hk]
  | cons hd tl ih =>
    obtain ⟨k2, v2⟩ := hd
    by_cases h2 : k2 = k
    · subst h2
      simp [objGet, objSet, hk]
    · simp [objGet, objSet, h2, ih]

theorem objGet_objDel_self (es : JObject) (k : String) :
    objGet (objDel es k) k = none := by
  induction es with
  | nil => simp [objGet, objDel]
  | cons hd tl ih =>
    obtain ⟨k1, v1⟩ := hd
    by_cases h : k1 = k <;> simp [objGet, objDel, h, ih]

theorem mem_objSet {es : JObject} {k k1 : String} {v v1 : JValue}
    (h : (k1, v1) ∈ objSet es k v) : (k1, v1) ∈ es ∨ (k1 = k ∧ v1 = v) := by
  induction es with
  | nil =>
    simp [objSet] at h
    exact Or.inr ⟨h.1, h.2⟩
  | cons hd tl ih =>
    obtain ⟨k2, v2⟩ := hd
    by_cases h2 : k2 = k
    · subst h2
      simp [objSet] at h
      rcases h with h | h
      · exact Or.inr ⟨h.1, h.2⟩
      · exact Or.inl (List.mem_cons_of_mem _ h)
    · simp [objSet, h2] at h
      rcases h with h | h
      · exact Or.inl (by simp [h])
      · rcases ih h with h3 | h3
        · exact Or.inl (List.mem_cons_of_mem _ h3)
        · exact Or.inr h3

/-- Whether an update along a three-segment path can traverse the store:
the two intermediate levels are absent or objects. -/
def updatable3 (root : JObject) (p t : String) : Bool :=
  match objGet root p with
  | none => true
  | some (.o sub) =>
    match objGet sub t with
    | none => true
    | some (.o _) => true
    | some _ => false
  | some _ => false

theorem jGet_cons_congr {a b : JObject} (p : String) (r : List String)
    (h : objGet a p = objGet b p) :
    jGet (.o a) (p :: r) = jGet (.o b) (p :: r) := by
  simp only [jGet]
  rw [h]

theorem storeUpdate3_get (root : JObject) (p t k : String) (v : JValue)
    (h : updatable3 root p t = true) :
    jGet (.o (storeUpdate root [p, t, k] (fun _ => v))) [p, t, k] = some v := by
  unfold updatable3 at h
  cases hp : objGet root p with
  | none =>
    simp [storeUpdate, jUpdate, hp, jGet, objGet_objSet_self, objGet]
  | some v1 =>
    cases v1 with
    | o sub =>
      cases ht : objGet sub t with
      | none =>
        simp [storeUpdate, jUpdate, hp, ht, jGet, objGet_objSet_self, objGet]
      | some v2 =>
        cases v2 with
        | o sub2 =>
          simp [storeUpdate, jUpdate, hp, ht, jGet, objGet_objSet_self]
        | i n => rw [hp] at h; simp [ht] at h
        | s w => rw [hp] at h; simp [ht] at h
        | b w => rw [hp] at h; simp [ht] at h
    | i n => rw [hp] at h; simp at h
    | s w => rw [hp] at h; simp at h
    | b w => rw [hp] at h; simp at h

theorem storeUpdate3_objGet_ne (root : JObject) (p t k q : String)
    (f : Option JValue → JValue) (h : q ≠ p) :
    objGet (storeUpdate root [p, t, k] f) q = objGet root q := by
  cases hp : objGet root p with
  | none =>
    simp [storeUpdate, jUpdate, hp, objGet, objGet_objSet_ne _ _ _ _ h]
  | some v1 =>
    cases v1 with
    | o sub =>
      cases ht : objGet sub t with
      | none =>
        simp [storeUpdate, jUpdate, hp, ht, objGet, objGet_objSet_ne _ _ _ _ h]
      | some v2 =>
        cases v2 with
        | o sub2 =>
          simp [storeUpdate, jUpdate, hp, ht, objGet_objSet_ne _ _ _ _ h]
        | i n => simp [storeUpdate, jUpdate, hp, ht]
        | s w => simp [storeUpdate, jUpdate, hp, ht]
        | b w => simp [storeUpdate, jUpdate, hp, ht]
    | i n => simp [storeUpdate, jUpdate, hp]
    | s w => simp [storeUpdate, jUpdate, hp]
    | b w => simp [storeUpdate, jUpdate, hp]

theorem storeUpdate3_updatable_self (root : JObject) (p t k : String) (v : JValue)
    (h : updatable3 root p t = true) :
    updatable3 (storeUpdate root [p, t, k] (fun _ => v)) p t = true := by
  unfold updatable3 at h
  cases hp : objGet root p with
  | none =>
    simp [storeUpdate, jUpdate, hp, updatable3, objGet_objSet_self, objGet]
  | some v1 =>
    cases v1 with
    | o sub =>
      cases ht : objGet sub t with
      | none =>
        simp [storeUpdate, jUpdate, hp, ht, updatable3, objGet_objSet_self, objGet]
      | some v2 =>
        cases v2 with
        | o sub2 =>
          simp [storeUpdate, jUpdate, hp, ht, updatable3, objGet_objSet_self]
        | i n => rw [hp] at h; simp [ht] at h
        | s w => rw [hp] at h; simp [ht] at h
        | b w => rw [hp] at h; simp [ht] at h
    | i n => rw [hp] at h; simp at h
    | s w => rw [hp] at h; simp at h
    | b w => rw [hp] at h; simp at h

theorem storeUpdate3_updatable_ne (root : JObject) (p t k q t1 : String)
    (f : Option JValue → JValue) (h : q ≠ p) :
    updatable3 (storeUpdate root [p, t, k] f) q t1 = updatable3 root q t1 := by
  unfold updatable3
  rw [storeUpdate3_objGet_ne root p t k q f h]

theorem jGet3_updatable (root : JObject) (p t k : String) (v : JValue)
    (h : jGet (.o root) [p, t, k] = some v) :
    updatable3 root p t = true := by
  unfold updatable3
  cases hp : objGet root p with
  | none => simp [hp]
  | some v1 =>
    simp only [jGet, hp] at h
    cases v1 with
    | o sub =>
      cases ht : objGet sub t with
      | none => simp [hp, ht]
      | some v2 =>
        simp only [jGet, ht] at h
        cases v2 with
        | o sub2 => simp [hp, ht]
        | i n => simp [jGet] at h
        | s w => simp [jGet] at h
        | b w => simp [jGet] at h
    | i n => simp [jGet] at h
    | s w => simp [jGet] at h
    | b w => simp [jGet] at h

/-- Repeated constant updates preserve an already written leaf. -/
theorem foldRecord_pres (t k : String) (v : JValue) :
    ∀ (l : List String) (st : JObject) (p : String),
      (∀ q ∈ l, updatable3 st q t = true) →
      jGet (.o st) [p, t, k] = some v →
      jGet
        (.o (l.foldl (fun s q => storeUpdate s [q, t, k] (fun _ => v)) st))
        [p, t, k] = some v := by
  intro l
  induction l with
  | nil => intro st p _ h2; simpa using h2
  | cons q0 tl ih =>
    intro st p h1 h2
    simp only [List.foldl_cons]
    by_cases hq : q0 = p
    · subst hq
      apply ih
      · intro q hq1
        by_cases hq2 : q = q0
        · subst hq2
          exact storeUpdate3_updatable_self st q t k v (jGet3_updatable st q t k v h2)
        · rw [storeUpdate3_updatable_ne st q0 t k q t _ hq2]
          exact h1 q (List.mem_cons_of_mem _ hq1)
      · exact storeUpdate3_get st q0 t k v (jGet3_updatable st q0 t k v h2)
    · apply ih
      · intro q hq1
        by_cases hq2 : q = q0
        · subst hq2
          exact storeUpdate3_updatable_self st q t k v (h1 q (List.mem_cons_self _ _))
        · rw [storeUpdate3_updatable_ne st q0 t k q t _ hq2]
          exact h1 q (List.mem_cons_of_mem _ hq1)
      · rw [jGet_cons_congr p [t, k]
          (storeUpdate3_objGet_ne st q0 t k p _ (fun hh => hq hh.symm))]
        exact h2

/-- Recording a constant value under every ping of a list writes the leaf
for each of them, provided every path can be traversed. -/
theorem foldRecord_sets (t k : String) (v : JValue) :
    ∀ (l : List String) (st : JObject),
      (∀ q ∈ l, updatable3 st q t = true) →
      ∀ p ∈ l,
        jGet
          (.o (l.foldl (fun s q => storeUpdate s [q, t, k] (fun _ => v)) st))
          [p, t, k] = some v := by
  intro l
  induction l with
  | nil => intro st _ p hp; simp at hp
  | cons q0 tl ih =>
    intro st h1 p hp
    simp only [List.foldl_cons]
    have hupd : ∀ q ∈ tl, updatable3 (storeUpdate st [q0, t, k] (fun _ => v)) q t = true := by
      intro q hq1
      by_cases hq2 : q = q0
      · subst hq2
        exact storeUpdate3_updatable_self st q t k v (h1 q (List.mem_cons_self _ _))
      · rw [storeUpdate3_updatable_ne st q0 t k q t _ hq2]
        exact h1 q (List.mem_cons_of_mem _ hq1)
    rcases List.mem_cons.mp hp with hp1 | hp1
    · subst hp1
      exact foldRecord_pres t k v tl _ p hupd
        (storeUpdate3_get st p t k v (h1 p (List.mem_cons_self _ _)))
    · exact ih _ hupd p hp1

theorem chooseStore_withStore (db : MetricsDatabase) (lt : Lifetime) (st : JObject) :
    (db.withStore lt st).chooseStore lt = st := by
  cases lt <;> rfl

/-- Deleting a present three-segment leaf removes it. -/
theorem jGet_jDelete3 {root : JObject} {p t k : String} {v : JValue}
    (h : jGet (.o root) [p, t, k] = some v) :
    jGet (.o (jDelete root [p, t, k])) [p, t, k] = none := by
  cases hp : objGet root p with
  | none => simp [jGet, hp] at h
  | some v1 =>
    simp only [jGet, hp] at h
    cases v1 with
    | o sub =>
      cases ht : objGet sub t with
      | none => simp [jGet, ht] at h
      | some v2 =>
        simp only [jGet, ht] at h
        cases v2 with
        | o sub2 =>
          simp [jDelete, hp, ht, jGet, objGet_objSet_self, objGet_objDel_self]
        | i n => simp [jGet] at h
        | s w => simp [jGet] at h
        | b w => simp [jGet] at h
    | i n => simp [jGet] at h
    | s w => simp [jGet] at h
    | b w => simp [jGet] at h

/-- An example internal-representation validator for the boolean kind,
used by concrete witnesses: the boolean kind accepts exactly the boolean
values. -/
def demoValidate (t : String) (v : JValue) : Bool :=
  match t, v with
  | "boolean", .b _ => true
  | _, _ => false

/-- A concrete store pre-seeded with a corrupt boolean entry, as in the
corrupt-storage scenario of the spec. -/
def demoCorruptDb : MetricsDatabase :=
  ⟨[("baseline", .o [("boolean", .o [("ui.x", .i 42)])])], [], []⟩

/-- The ui.x boolean metric of the corrupt-storage scenario. -/
def demoBooleanMetric : MetricType :=
  ⟨"ui", "x", "boolean", .user, ["baseline"], false⟩

/-! Claim theorems. -/

/-- C1: on the uploadEnabled true-to-false transition the orchestrator
submits exactly one deletion-request ping, the submission precedes every
database clear, the events, metrics and pings databases are all cleared,
and the final state has the previously stored first_run_date restored
(the current date when none was stored), the sentinel client_id, and
uploadEnabled false. -/
theorem onUploadDisabled_spec (s : GleanState) (now : Nat) (at_init : Bool) :
    ((onUploadDisabled at_init now s).2.countP isDeletionSubmit) = 1 ∧
    (((onUploadDisabled at_init now s).2.takeWhile
        (fun e => !(isDbClear e))).countP isDeletionSubmit) = 1 ∧
    OrchEvent.clearEventsDb ∈ (onUploadDisabled at_init now s).2 ∧
    OrchEvent.clearMetricsDb ∈ (onUploadDisabled at_init now s).2 ∧
    OrchEvent.clearPingsDb ∈ (onUploadDisabled at_init now s).2 ∧
    (onUploadDisabled at_init now s).1.uploadEnabled = false ∧
    (onUploadDisabled at_init now s).1.metricsClientId = some KNOWN_CLIENT_ID ∧
    (onUploadDisabled at_init now s).1.metricsFirstRunDate
      = some (s.metricsFirstRunDate.getD now) ∧
    (onUploadDisabled at_init now s).1.eventsDb = [] ∧
    (onUploadDisabled at_init now s).1.metricsOther = [] ∧
    (onUploadDisabled at_init now s).1.pingsDb = [] := by
  simp [onUploadDisabled, submitUndispatched, clearMetricsFlow, clearPendingPingsQueue,
    clientIdSetUndispatched, firstRunDateSetUndispatched, isDeletionSubmit, isDbClear,
    List.countP_cons, List.takeWhile]

/-- C4: recording through transform on a disabled metric leaves the
metrics database (all three lifetime stores) unchanged; the function has
no error-recording path at all, so no error is recorded either. -/
theorem transform_disabled_noop (db : MetricsDatabase) (m : MetricType)
    (fn : Option JValue → JValue) (h : m.disabled = true) :
    MetricsDatabase.transform db m fn = db := by
  simp [MetricsDatabase.transform, h]

/-- Witness for C4 at a concrete disabled metric and a populated store. -/
theorem transform_disabled_noop_witness :
    MetricsDatabase.transform
      ⟨[("baseline", .o [("boolean", .o [("ui.x", .b true)])])], [], []⟩
      ⟨"ui", "x", "boolean", .user, ["baseline"], true⟩
      (fun _ => .b false)
      = ⟨[("baseline", .o [("boolean", .o [("ui.x", .b true)])])], [], []⟩ :=
  transform_disabled_noop _ _ _ rfl

/-- C9: the shared set of the boolean metric type routes to the wrong
recording path: on a synchronous platform it takes the asynchronous path
and on an asynchronous platform the synchronous path, the exact inverse
of the platform-dispatch rule of the quantity metric type. -/
theorem booleanSetRoute_inverted :
    booleanSetRoute true = RecordingPath.asyncPath ∧
    booleanSetRoute false = RecordingPath.syncPath ∧
    quantitySetRoute true = RecordingPath.syncPath ∧
    quantitySetRoute false = RecordingPath.asyncPath ∧
    (∀ b, booleanSetRoute b ≠ quantitySetRoute b) := by
  refine ⟨rfl, rfl, rfl, rfl, ?_⟩
  intro b
  cases b <;> decide

/-- C5 counterexample: the synchronous dispatcher, before the Context
reports initialized, accepts a non-priority launch in the Uninitialized
state even when the main queue already holds maxPreInitQueueSize
commands and the pre-init buffer holds as many: launchInternal returns
true and the buffered pre-init tasks grow to 101. -/
theorem sync_preinit_overflow_counterexample :
    (DispatcherSyncMode.launchInternal false 0
          ⟨List.replicate 100 (.task 0), List.replicate 100 (.task 0), .uninit, 100⟩
          (.task 7) false).1 = true ∧
    (DispatcherSyncMode.launchInternal false 0
          ⟨List.replicate 100 (.task 0), List.replicate 100 (.task 0), .uninit, 100⟩
          (.task 7) false).2.1.preInitQueue.length = 101 ∧
    (List.replicate 100 (Command.task 0)).length = 100 := by
  refine ⟨rfl, ?_, by simp⟩
  simp [DispatcherSyncMode.launchInternal]

/-- C5 amended: the pre-init bound holds unconditionally for the
asynchronous dispatcher, and for the synchronous dispatcher once the
Context reports initialized: a non-priority launch in the Uninitialized
state with the queue at maxPreInitQueueSize is refused and changes
nothing. Before Context initialization the synchronous dispatcher
instead buffers the command in its unbounded pre-init queue. -/
theorem launch_preinit_bound (f : Nat) (dA : DispatcherAsync)
    (dS : DispatcherSyncMode) (cmd : Command)
    (hA1 : dA.state = DState.uninit)
    (hA2 : dA.queue.length ≥ dA.maxPreInitQueueSize)
    (hS1 : dS.state = DState.uninit)
    (hS2 : dS.queue.length ≥ dS.maxPreInitQueueSize) :
    DispatcherAsync.launchInternal f dA cmd false = (false, dA, []) ∧
    DispatcherSyncMode.launchInternal true f dS cmd false = (false, dS, []) := by
  constructor
  · simp [DispatcherAsync.launchInternal, hA1, hA2]
  · simp [DispatcherSyncMode.launchInternal, hS1, hS2]

/-- The uuid metric of the uuid set scenarios. -/
def demoUuidMetric : MetricType :=
  ⟨"ui", "x", "uuid", .ping, ["store1"], false⟩

/-- The quantity metric of the quantity set scenarios. -/
def demoQuantityMetric : MetricType :=
  ⟨"ui", "q", "quantity", .application, ["store1"], false⟩

/-- A concrete well-shaped generated UUID. -/
def demoGeneratedUuid : String := "aaaaaaaa-aaaa-aaaa-aaaa-aaaaaaaaaaaa"

/-- C2: for every validator, ping and metric, when a value is stored
under the metric key and fails the kind validator, getMetric deletes the
stored leaf and returns none, leaving no value at that key; when the
stored value passes the validator, getMetric returns it and the database
is unchanged. -/
theorem getMetric_corruption_tolerant (validate : String → JValue → Bool)
    (db : MetricsDatabase) (ping : String) (m : MetricType) (v : JValue)
    (hv : storeGet (db.chooseStore m.lifetime) [ping, m.type, m.identifier] = some v) :
    (validate m.type v = false →
      (MetricsDatabase.getMetric validate db ping m).1 = none ∧
      storeGet (((MetricsDatabase.getMetric validate db ping m).2).chooseStore m.lifetime)
        [ping, m.type, m.identifier] = none) ∧
    (validate m.type v = true →
      MetricsDatabase.getMetric validate db ping m = (some v, db)) := by
  have h1 : jGet (.o (db.chooseStore m.lifetime)) [ping, m.type, m.identifier] = some v := hv
  constructor
  · intro hbad
    simp only [MetricsDatabase.getMetric, hv, hbad, Bool.not_false, if_true]
    refine ⟨by simp, ?_⟩
    rw [chooseStore_withStore]
    exact jGet_jDelete3 h1
  · intro hgood
    simp [MetricsDatabase.getMetric, hv, hgood]

/-- Witness for C2 at the pre-seeded corrupt store: the bogus value 42
under the boolean kind is reported as none and removed. -/
theorem getMetric_corruption_tolerant_witness :
    (MetricsDatabase.getMetric demoValidate demoCorruptDb "baseline" demoBooleanMetric).1
      = none ∧
    storeGet
      (((MetricsDatabase.getMetric demoValidate demoCorruptDb "baseline"
          demoBooleanMetric).2).chooseStore Lifetime.user)
      ["baseline", "boolean", "ui.x"] = none := by
  have h := (getMetric_corruption_tolerant demoValidate demoCorruptDb "baseline"
    demoBooleanMetric (.i 42) rfl).1 rfl
  exact h

/-- C6 counterexample: the empty string does not match the loose UUID
regex, yet set with the empty string while recording is enabled records
no error at all and persists a freshly generated UUID, so the claim as
stated fails at the empty string. -/
theorem uuidSet_empty_counterexample :
    uuidRegexMatch "" = false ∧
    (uuidSet demoGeneratedUuid true ⟨[], [], []⟩ demoUuidMetric "").2 = [] ∧
    storeGet
      (((uuidSet demoGeneratedUuid true ⟨[], [], []⟩ demoUuidMetric "").1).chooseStore
        Lifetime.ping)
      ["store1", "uuid", "ui.x"] = some (.s demoGeneratedUuid) := by
  refine ⟨by decide, rfl, ?_⟩
  rfl

/-- C6 amended: for every non-empty input string that does not match the
loose UUID regex, set while recording is enabled records exactly one
invalid_value error and leaves the database untouched. -/
theorem uuidSet_invalid_records_error (gen : String) (u : Bool) (db : MetricsDatabase)
    (m : MetricType) (value : String)
    (hrec : m.shouldRecord u = true)
    (hne : value ≠ "")
    (hbad : uuidRegexMatch value = false) :
    uuidSet gen u db m value = (db, [ErrorType.invalidValue]) := by
  simp [uuidSet, hrec, hne, hbad, UUIDMetric.tryNew]

/-- Witness for the amended C6 at a concrete malformed string. -/
theorem uuidSet_invalid_records_error_witness :
    uuidSet demoGeneratedUuid true ⟨[], [], []⟩ demoUuidMetric "not-a-uuid"
      = (⟨[], [], []⟩, [ErrorType.invalidValue]) :=
  uuidSet_invalid_records_error demoGeneratedUuid true ⟨[], [], []⟩ demoUuidMetric
    "not-a-uuid" rfl (by decide) (by decide)

/-- C10: set with the empty string while recording is enabled records no
error; a fresh well-shaped UUID is generated and that generated value is
recorded and persisted for the metric under each of its target pings. -/
theorem uuidSet_empty_generates (gen : String) (u : Bool) (db : MetricsDatabase)
    (m : MetricType)
    (hrec : m.shouldRecord u = true)
    (hgen : uuidRegexMatch gen = true)
    (hup : ∀ p ∈ m.sendInPings, updatable3 (db.chooseStore m.lifetime) p m.type = true) :
    (uuidSet gen u db m "").2 = [] ∧
    (uuidSet gen u db m "").1 = db.record m (.s gen) ∧
    ∀ p ∈ m.sendInPings,
      storeGet (((uuidSet gen u db m "").1).chooseStore m.lifetime)
        [p, m.type, m.identifier] = some (.s gen) := by
  have hdis : m.disabled = false := by
    have h2 := (Bool.and_eq_true _ _).mp hrec
    simpa using h2.2
  have heq : uuidSet gen u db m "" = (db.record m (.s gen), []) := by
    simp [uuidSet, hrec, hgen, UUIDMetric.tryNew]
  refine ⟨by rw [heq], by rw [heq], ?_⟩
  intro p hp
  rw [heq]
  simp only [MetricsDatabase.record, MetricsDatabase.transform, hdis, if_false,
    Bool.false_eq_true]
  rw [chooseStore_withStore]
  exact foldRecord_sets m.type m.identifier (.s gen) m.sendInPings
    (db.chooseStore m.lifetime) hup p hp

/-- Witness for C10 on the empty store. -/
theorem uuidSet_empty_generates_witness :
    (uuidSet demoGeneratedUuid true ⟨[], [], []⟩ demoUuidMetric "").2 = [] ∧
    storeGet
      (((uuidSet demoGeneratedUuid true ⟨[], [], []⟩ demoUuidMetric "").1).chooseStore
        demoUuidMetric.lifetime)
      ["store1", "uuid", demoUuidMetric.identifier] = some (.s demoGeneratedUuid) := by
  have h := uuidSet_empty_generates demoGeneratedUuid true ⟨[], [], []⟩ demoUuidMetric
    rfl (by decide) (by intro p hp; exact rfl)
  exact ⟨h.1, h.2.2 "store1" (by decide)⟩

/-- C7: the quantity set operation, on the asynchronous and on the
synchronous path alike: a negative value records exactly one
invalid_value error and persists nothing; a non-negative value above
Number.MAX_SAFE_INTEGER is persisted saturated at that maximum; any
other non-negative value is persisted as given. -/
theorem quantitySetUndispatched_spec (u : Bool) (db : MetricsDatabase)
    (m : MetricType) (v : Int)
    (hrec : m.shouldRecord u = true)
    (hup : ∀ p ∈ m.sendInPings, updatable3 (db.chooseStore m.lifetime) p m.type = true) :
    (v < 0 →
      quantitySetUndispatched u db m v = (db, [ErrorType.invalidValue]) ∧
      quantitySetUndispatchedSync u db m v = (db, [ErrorType.invalidValue])) ∧
    (0 ≤ v → maxSafeInteger < v →
      quantitySetUndispatchedSync u db m v = quantitySetUndispatched u db m v ∧
      (quantitySetUndispatched u db m v).2 = [] ∧
      ∀ p ∈ m.sendInPings,
        storeGet (((quantitySetUndispatched u db m v).1).chooseStore m.lifetime)
          [p, m.type, m.identifier] = some (.i maxSafeInteger)) ∧
    (0 ≤ v → v ≤ maxSafeInteger →
      quantitySetUndispatchedSync u db m v = quantitySetUndispatched u db m v ∧
      (quantitySetUndispatched u db m v).2 = [] ∧
      ∀ p ∈ m.sendInPings,
        storeGet (((quantitySetUndispatched u db m v).1).chooseStore m.lifetime)
          [p, m.type, m.identifier] = some (.i v)) := by
  have hdis : m.disabled = false := by
    have h2 := (Bool.and_eq_true _ _).mp hrec
    simpa using h2.2
  have hsync : quantitySetUndispatchedSync u db m v = quantitySetUndispatched u db m v := rfl
  refine ⟨?_, ?_, ?_⟩
  · intro hneg
    constructor <;> simp [quantitySetUndispatched, quantitySetUndispatchedSync, hrec, hneg]
  · intro h0 hbig
    have hmax : ¬(maxSafeInteger < (0 : Int)) := by decide
    have heq : quantitySetUndispatched u db m v = (db.record m (.i maxSafeInteger), []) := by
      simp [quantitySetUndispatched, hrec, not_lt.mpr h0, hbig, QuantityMetric.tryNew, hmax]
    refine ⟨hsync, by rw [heq], ?_⟩
    intro p hp
    rw [heq]
    simp only [MetricsDatabase.record, MetricsDatabase.transform, hdis, if_false,
      Bool.false_eq_true]
    rw [chooseStore_withStore]
    exact foldRecord_sets m.type m.identifier (.i maxSafeInteger) m.sendInPings
      (db.chooseStore m.lifetime) hup p hp
  · intro h0 hsmall
    have heq : quantitySetUndispatched u db m v = (db.record m (.i v), []) := by
      simp [quantitySetUndispatched, hrec, not_lt.mpr h0, not_lt.mpr hsmall,
        QuantityMetric.tryNew, not_lt.mpr h0]
    refine ⟨hsync, by rw [heq], ?_⟩
    intro p hp
    rw [heq]
    simp only [MetricsDatabase.record, MetricsDatabase.transform, hdis, if_false,
      Bool.false_eq_true]
    rw [chooseStore_withStore]
    exact foldRecord_sets m.type m.identifier (.i v) m.sendInPings
      (db.chooseStore m.lifetime) hup p hp

/-- Witness for C7: all three regimes at concrete values on the empty
store. -/
theorem quantitySetUndispatched_spec_witness :
    quantitySetUndispatched true ⟨[], [], []⟩ demoQuantityMetric (-5)
      = (⟨[], [], []⟩, [ErrorType.invalidValue]) ∧
    storeGet
      (((quantitySetUndispatched true ⟨[], [], []⟩ demoQuantityMetric (2 ^ 60)).1).chooseStore
        demoQuantityMetric.lifetime)
      ["store1", "quantity", demoQuantityMetric.identifier] = some (.i maxSafeInteger) ∧
    storeGet
      (((quantitySetUndispatched true ⟨[], [], []⟩ demoQuantityMetric 7).1).chooseStore
        demoQuantityMetric.lifetime)
      ["store1", "quantity", demoQuantityMetric.identifier] = some (.i 7) := by
  have hup : ∀ p ∈ demoQuantityMetric.sendInPings,
      updatable3 ((⟨[], [], []⟩ : MetricsDatabase).chooseStore demoQuantityMetric.lifetime)
        p demoQuantityMetric.type = true := by
    intro p hp; exact rfl
  have hneg := (quantitySetUndispatched_spec true ⟨[], [], []⟩ demoQuantityMetric (-5)
    rfl hup).1 (by decide)
  have hbig := ((quantitySetUndispatched_spec true ⟨[], [], []⟩ demoQuantityMetric (2 ^ 60)
    rfl hup).2.1 (by decide) (by decide)).2.2 "store1" (by decide)
  have hmid := ((quantitySetUndispatched_spec true ⟨[], [], []⟩ demoQuantityMetric 7
    rfl hup).2.2 (by decide) (by decide)).2.2 "store1" (by decide)
  exact ⟨hneg.1, hbig, hmid⟩

/-- Witness for the amended C5 at full queues of length 100. -/
theorem launch_preinit_bound_witness :
    DispatcherAsync.launchInternal 0
        ⟨List.replicate 100 (.task 0), .uninit, 100⟩ (.task 7) false
      = (false, ⟨List.replicate 100 (.task 0), .uninit, 100⟩, []) ∧
    DispatcherSyncMode.launchInternal true 0
        ⟨List.replicate 100 (.task 0), [], .uninit, 100⟩ (.task 7) false
      = (false, ⟨List.replicate 100 (.task 0), [], .uninit, 100⟩, []) :=
  launch_preinit_bound 0 _ _ _ rfl (by simp) rfl (by simp)

/-! Dispatcher execution lemmas for the Clear command. -/

theorem count_filter_eq (p : Command → Bool) (l : List Command) (c : Command) :
    (l.filter p).count c = if p c then l.count c else 0 := by
  induction l with
  | nil => simp
  | cons a l ih =>
    by_cases hpa : p a
    · by_cases hca : c = a
      · subst hca
        simp [List.filter_cons, hpa, List.count_cons, ih]
      · simp [List.filter_cons, hpa, List.count_cons, ih, hca]
    · by_cases hca : c = a
      · subst hca
        simp [List.filter_cons, hpa, List.count_cons, ih]
      · simp [List.filter_cons, hpa, List.count_cons, ih, hca]

/-- Every task that runs during an execution was the task of a command in
the queue the execution started from. -/
theorem ran_mem_taskIds (f : Nat) :
    ∀ (q : List Command) (i : Nat),
      ExecEvent.ran i ∈ (executeRun f q).1 → i ∈ taskIds q := by
  induction f with
  | zero => intro q i h; simp [executeRun] at h
  | succ f ih =>
    intro q i h
    cases q with
    | nil => simp [executeRun] at h
    | cons c q =>
      cases c with
      | stop => simp [executeRun] at h
      | shutdown => simp [executeRun] at h
      | clear =>
        simp only [executeRun, List.mem_append] at h
        rcases h with h | h
        · simp at h
        · have h2 := ih _ i h
          have h3 : i ∈ taskIds q :=
            (List.Sublist.filterMap Command.taskId (List.filter_sublist q)).subset h2
          simp [taskIds, List.filterMap_cons, Command.taskId]
          exact (by simpa [taskIds] using h3)
      | task j =>
        simp only [executeRun, List.mem_cons] at h
        rcases h with h | h
        · simp [taskIds, List.filterMap_cons, Command.taskId]
          left
          exact (ExecEvent.ran.injEq i j ▸ congrArg (fun e => e) h) ▸ (by
            cases h
            rfl)
        · have := ih _ i h
          simp [taskIds, List.filterMap_cons, Command.taskId]
          right
          simpa [taskIds] using this
      | persistentTask j =>
        simp only [executeRun, List.mem_cons] at h
        rcases h with h | h
        · cases h
          simp [taskIds, List.filterMap_cons, Command.taskId]
        · have := ih _ i h
          simp [taskIds, List.filterMap_cons, Command.taskId]
          right
          simpa [taskIds] using this
      | testTask j rid =>
        simp only [executeRun, List.mem_cons] at h
        rcases h with h | h
        · cases h
          simp [taskIds, List.filterMap_cons, Command.taskId]
        · rcases h with h | h
          · cases h
          · have := ih _ i h
            simp [taskIds, List.filterMap_cons, Command.taskId]
            right
            simpa [taskIds] using this
      | initTask j ok =>
        cases ok with
        | true =>
          simp only [executeRun, List.mem_cons, if_true] at h
          rcases h with h | h
          · cases h
            simp [taskIds, List.filterMap_cons, Command.taskId]
          · have := ih _ i h
            simp [taskIds, List.filterMap_cons, Command.taskId]
            right
            simpa [taskIds] using this
        | false =>
          simp only [executeRun, List.mem_cons, if_false, Bool.false_eq_true] at h
          rcases h with h | h
          · cases h
            simp [taskIds, List.filterMap_cons, Command.taskId]
          · have h2 := ih _ i h
            have h3 : i ∈ taskIds q := by
              simpa [taskIds, List.filterMap_cons, List.filterMap_append,
                Command.taskId] using h2
            simp [taskIds, List.filterMap_cons, Command.taskId]
            right
            simpa [taskIds] using h3

/-- C8: processing a Clear command first resolves the resolver of every
TestTask in the queue, in order and before any further event; execution
then continues on a queue that is a subsequence of the previous queue
holding exactly its PersistentTask and Shutdown commands with their
multiplicities; every task that runs afterwards belongs to one of the
kept commands, so the dropped commands are never executed. -/
theorem dispatcher_clear_spec (f : Nat) (q : List Command) :
    ∃ q1,
      q1.Sublist q ∧
      (∀ c, c ∈ q1 ↔ c ∈ q ∧ keepOnClear c = true) ∧
      (∀ c, q1.count c = if keepOnClear c then q.count c else 0) ∧
      executeRun (f + 1) (Command.clear :: q)
        = ((resolversOf q).map ExecEvent.resolved ++ (executeRun f q1).1,
            (executeRun f q1).2.1, (executeRun f q1).2.2) ∧
      (∀ i, ExecEvent.ran i ∈ (executeRun (f + 1) (Command.clear :: q)).1 →
        i ∈ taskIds q1) := by
  refine ⟨q.filter keepOnClear, List.filter_sublist q, ?_, ?_, rfl, ?_⟩
  · intro c
    simp [List.mem_filter]
  · intro c
    exact count_filter_eq keepOnClear q c
  · intro i h
    simp only [executeRun, List.mem_append] at h
    rcases h with h | h
    · simp at h
    · exact ran_mem_taskIds f _ i h

/-! String lemmas for the reserved-identifier arguments of C3. -/

theorem isPrefixOf_iff_ex : ∀ (l1 l2 : List Char), l1.isPrefixOf l2 = true ↔ ∃ t, l1 ++ t = l2 := by
  intro l1
  induction l1 with
  | nil => intro l2; simp [List.isPrefixOf]
  | cons a as ih =>
    intro l2
    cases l2 with
    | nil => simp [List.isPrefixOf]
    | cons b bs =>
      simp only [List.isPrefixOf, Bool.and_eq_true, beq_iff_eq, ih]
      constructor
      · rintro ⟨hab, t, ht⟩
        exact ⟨t, by rw [List.cons_append, hab, ht]⟩
      · rintro ⟨t, ht⟩
        rw [List.cons_append] at ht
        injection ht with h1 h2
        exact ⟨h1, t, h2⟩

theorem isPrefixOf_append_right (l a b : List Char) (h : l.isPrefixOf a = true) :
    l.isPrefixOf (a ++ b) = true := by
  rcases (isPrefixOf_iff_ex l a).mp h with ⟨t, ht⟩
  exact (isPrefixOf_iff_ex _ _).mpr ⟨t ++ b, by rw [← List.append_assoc, ht]⟩

theorem not_mem_takeWhile_self (c : Char) :
    ∀ (l : List Char), c ∉ l.takeWhile (fun x => !(x == c)) := by
  intro l
  induction l with
  | nil => simp
  | cons a l ih =>
    by_cases ha : (a == c) = true
    · simp [List.takeWhile_cons, ha]
    · have ha2 : ¬ a = c := by simpa using ha
      have ha3 : (!(a == c)) = true := by simp [ha2]
      simp only [List.takeWhile_cons, ha3, if_true, List.mem_cons]
      rintro (h | h)
      · exact ha2 h.symm
      · exact ih h

theorem jsSplit2_fst (sep : Char) (s : String) :
    (jsSplit2 sep s).1 = String.mk (s.toList.takeWhile (fun c => !(c == sep))) := by
  unfold jsSplit2
  cases hd : List.dropWhile (fun c => !(c == sep)) s.data <;>
    simp [String.toList, hd]

theorem jsSplit2_head_noslash (sep : Char) (s : String) :
    strContains (jsSplit2 sep s).1 sep = false := by
  rw [jsSplit2_fst]
  simp only [strContains, decide_eq_false_iff_not]
  exact not_mem_takeWhile_self sep s.toList

theorem jsSplit2_head_pref (pfx : String) (sep : Char) (s : String)
    (h : strStartsWith pfx s = false) :
    strStartsWith pfx (jsSplit2 sep s).1 = false := by
  rw [jsSplit2_fst]
  simp only [strStartsWith]
  cases hp : List.isPrefixOf pfx.toList
      (String.mk (s.toList.takeWhile (fun c => !(c == sep)))).toList with
  | false => rfl
  | true =>
    exfalso
    have h2 := isPrefixOf_append_right pfx.toList
      (s.toList.takeWhile (fun c => !(c == sep)))
      (s.toList.dropWhile (fun c => !(c == sep))) hp
    rw [List.takeWhile_append_dropWhile] at h2
    rw [strStartsWith] at h
    rw [h] at h2
    exact Bool.noConfusion h2

theorem strStartsWith_self_append (a b : String) :
    strStartsWith a (a ++ b) = true := by
  simp only [strStartsWith]
  exact (isPrefixOf_iff_ex _ _).mpr ⟨b.toList, rfl⟩

theorem str_ne_of_pref {p a b : String} (h1 : strStartsWith p a = true)
    (h2 : strStartsWith p b = false) : b ≠ a := by
  intro he
  rw [he, h1] at h2
  exact Bool.noConfusion h2

/-! Assoc-list lemmas for the Metrics snapshot shape. -/

theorem mGet_mSet_self (m : Metrics) (t : String) (o : JObject) :
    mGet (mSet m t o) t = some o := by
  induction m with
  | nil => simp [mGet, mSet]
  | cons hd tl ih =>
    obtain ⟨t1, o1⟩ := hd
    by_cases h : t1 = t <;> simp [mGet, mSet, h, ih]

theorem mGet_mSet_ne (m : Metrics) (t t1 : String) (o : JObject) (h : t1 ≠ t) :
    mGet (mSet m t o) t1 = mGet m t1 := by
  have hk : t ≠ t1 := Ne.symm h
  induction m with
  | nil => simp [mGet, mSet, hk]
  | cons hd tl ih =>
    obtain ⟨t2, o2⟩ := hd
    by_cases h2 : t2 = t
    · subst h2
      simp [mGet, mSet, hk]
    · simp [mGet, mSet, h2, ih]

theorem mem_mSet {m : Metrics} {t t1 : String} {o o1 : JObject}
    (h : (t1, o1) ∈ mSet m t o) : (t1, o1) ∈ m ∨ (t1 = t ∧ o1 = o) := by
  induction m with
  | nil =>
    simp [mSet] at h
    exact Or.inr ⟨h.1, h.2⟩
  | cons hd tl ih =>
    obtain ⟨t2, o2⟩ := hd
    by_cases h2 : t2 = t
    · subst h2
      simp [mSet] at h
      rcases h with h | h
      · exact Or.inr ⟨h.1, h.2⟩
      · exact Or.inl (List.mem_cons_of_mem _ h)
    · simp [mSet, h2] at h
      rcases h with h | h
      · exact Or.inl (by simp [h])
      · rcases ih h with h3 | h3
        · exact Or.inl (List.mem_cons_of_mem _ h3)
        · exact Or.inr h3

theorem mGet_mem {m : Metrics} {t : String} {o : JObject} (h : mGet m t = some o) :
    (t, o) ∈ m := by
  induction m with
  | nil => simp [mGet] at h
  | cons hd tl ih =>
    obtain ⟨t1, o1⟩ := hd
    by_cases h1 : t1 = t
    · subst h1
      simp [mGet] at h
      simp [h]
    · simp [mGet, h1] at h
      exact List.mem_cons_of_mem _ (ih h)

theorem objGet_map (g : JValue → JValue) (o : JObject) (k : String) :
    objGet (o.map (fun q => (q.1, g q.2))) k = (objGet o k).map g := by
  induction o with
  | nil => simp [objGet]
  | cons hd tl ih =>
    obtain ⟨k1, v1⟩ := hd
    by_cases h : k1 = k <;> simp [objGet, h, ih]

theorem mGet_payload (proj : String → JValue → JValue) (m : Metrics) (t : String) :
    mGet (createMetricsPayload proj m) t
      = (mGet m t).map (fun o => o.map (fun q => (q.1, proj t q.2))) := by
  induction m with
  | nil => simp [createMetricsPayload, mGet]
  | cons hd tl ih =>
    obtain ⟨t1, o1⟩ := hd
    by_cases h : t1 = t
    · subst h
      simp [createMetricsPayload, mGet]
    · simp only [createMetricsPayload, List.map_cons] at ih ⊢
      simp [mGet, h, ih]

/-! Invariants of the getPingMetrics merge loop. -/

/-- The identifier shape the merge loop admits into the response: not
reserved and not a slashed id. -/
def cleanId (id : String) : Prop :=
  strStartsWith reservedIdPref id = false ∧ strContains id '/' = false

/-- Every identifier key of a snapshot is clean. -/
def respClean (m : Metrics) : Prop :=
  ∀ p1 ∈ m, ∀ q1 ∈ p1.2, cleanId q1.1

theorem objClean_objSet {o : JObject} {id : String} {v : JValue}
    (ho : ∀ q1 ∈ o, cleanId q1.1) (hid : cleanId id) :
    ∀ q1 ∈ objSet o id v, cleanId q1.1 := by
  intro q1 hq1
  obtain ⟨k1, v1⟩ := q1
  rcases mem_objSet hq1 with h | ⟨h1, _⟩
  · exact ho _ h
  · simpa [h1] using hid

theorem respClean_mSet {m : Metrics} {t : String} {o : JObject}
    (hm : respClean m) (ho : ∀ q1 ∈ o, cleanId q1.1) :
    respClean (mSet m t o) := by
  intro p1 hp1 q1 hq1
  obtain ⟨t1, o1⟩ := p1
  rcases mem_mSet hp1 with h | ⟨_, h2⟩
  · exact hm _ h q1 hq1
  · subst h2
    exact ho q1 hq1

theorem sectClean_of_resp {m : Metrics} (t : String) (hm : respClean m) :
    ∀ q1 ∈ (mGet m t).getD [], cleanId q1.1 := by
  cases hg : mGet m t with
  | none => simp
  | some sect =>
    intro q1 hq1
    exact hm (t, sect) (mGet_mem hg) q1 (by simpa using hq1)

theorem processLabeled_clean {resp : Metrics} {t id : String} {v : JValue}
    (h : respClean resp) (hid : strStartsWith reservedIdPref id = false) :
    respClean (processLabeledMetric resp t id v) := by
  have hclean : cleanId (jsSplit2 '/' id).1 :=
    ⟨jsSplit2_head_pref _ _ _ hid, jsSplit2_head_noslash _ _⟩
  unfold processLabeledMetric
  cases hg : mGet resp ("labeled_" ++ t) with
  | none =>
    simp only [hg]
    exact respClean_mSet h (objClean_objSet (o := []) (by simp) hclean)
  | some sect =>
    have hsect : ∀ q1 ∈ sect, cleanId q1.1 := fun q1 hq1 => h _ (mGet_mem hg) q1 hq1
    cases hgo : objGet sect (jsSplit2 '/' id).1 with
    | some existing =>
      simp only [hg, hgo]
      exact respClean_mSet h (objClean_objSet hsect hclean)
    | none =>
      simp only [hg, hgo]
      exact respClean_mSet h (objClean_objSet hsect hclean)

theorem mergeStep_clean {resp : Metrics} (tr : String × String × JValue)
    (h : respClean resp) : respClean (mergeStep resp tr) := by
  obtain ⟨t, id, v⟩ := tr
  unfold mergeStep
  by_cases h1 : strStartsWith reservedIdPref id = true
  · simpa [h1] using h
  · have h1f : strStartsWith reservedIdPref id = false := by simpa using h1
    by_cases h2 : strContains id '/' = true
    · simp only [h1f, h2, Bool.false_eq_true, if_false, if_true]
      exact processLabeled_clean h h1f
    · have h2f : strContains id '/' = false := by simpa using h2
      simp only [h1f, h2f, Bool.false_eq_true, if_false]
      exact respClean_mSet h (objClean_objSet (sectClean_of_resp t h) ⟨h1f, h2f⟩)

theorem foldl_mergeStep_clean (l : List (String × String × JValue)) :
    ∀ resp, respClean resp → respClean (l.foldl mergeStep resp) := by
  induction l with
  | nil => intro resp h; simpa using h
  | cons a l ih =>
    intro resp h
    simp only [List.foldl_cons]
    exact ih _ (mergeStep_clean a h)

theorem payload_clean (proj : String → JValue → JValue) {m : Metrics}
    (h : respClean m) : respClean (createMetricsPayload proj m) := by
  intro p1 hp1 q1 hq1
  unfold createMetricsPayload at hp1
  rcases List.mem_map.mp hp1 with ⟨p0, hp0, hpe⟩
  subst hpe
  rcases List.mem_map.mp hq1 with ⟨q0, hq0, hqe⟩
  subst hqe
  exact h p0 hp0 q0 hq0

/-- A label for a given identifier is present in the labeled section of a
snapshot. -/
def labelPresent (m : Metrics) (nt nid lbl : String) : Prop :=
  ∃ es, (mGet m nt).bind (fun sect => objGet sect nid) = some (.o es) ∧
    objGet es lbl ≠ none

theorem labelPresent_mSet_ne {m : Metrics} {nt nid lbl t2 : String} {o : JObject}
    (h : labelPresent m nt nid lbl) (hne : t2 ≠ nt) :
    labelPresent (mSet m t2 o) nt nid lbl := by
  obtain ⟨es, hb, hl⟩ := h
  exact ⟨es, by rw [mGet_mSet_ne m t2 nt o (Ne.symm hne)]; exact hb, hl⟩

theorem processLabeled_establishes (resp : Metrics) (t id : String) (v : JValue) :
    labelPresent (processLabeledMetric resp t id v) ("labeled_" ++ t)
      (jsSplit2 '/' id).1 ((jsSplit2 '/' id).2.getD "") := by
  unfold processLabeledMetric
  cases hg : mGet resp ("labeled_" ++ t) with
  | none =>
    refine ⟨[(((jsSplit2 '/' id).2.getD ""), v)], ?_, by simp [objGet]⟩
    simp [hg, mGet_mSet_self, objGet_objSet_self]
  | some sect =>
    cases hgo : objGet sect (jsSplit2 '/' id).1 with
    | some existing =>
      refine ⟨objSet (asObj existing) ((jsSplit2 '/' id).2.getD "") v, ?_, ?_⟩
      · simp [hg, hgo, mGet_mSet_self, objGet_objSet_self]
      · simp [objGet_objSet_self]
    | none =>
      refine ⟨[(((jsSplit2 '/' id).2.getD ""), v)], ?_, by simp [objGet]⟩
      simp [hg, hgo, mGet_mSet_self, objGet_objSet_self]

theorem mergeStep_preserves_label {resp : Metrics} {nt nid lbl : String}
    (tr : String × String × JValue)
    (h : labelPresent resp nt nid lbl) (hk : tr.1 ≠ nt) :
    labelPresent (mergeStep resp tr) nt nid lbl := by
  obtain ⟨t, id, v⟩ := tr
  replace hk : t ≠ nt := hk
  unfold mergeStep
  by_cases h1 : strStartsWith reservedIdPref id = true
  · simpa [h1] using h
  · have h1f : strStartsWith reservedIdPref id = false := by simpa using h1
    by_cases h2 : strContains id '/' = true
    · simp only [h1f, h2, Bool.false_eq_true, if_false, if_true]
      unfold processLabeledMetric
      by_cases hnt2 : ("labeled_" ++ t) = nt
      · subst hnt2
        obtain ⟨es, hb, hl⟩ := h
        cases hg : mGet resp ("labeled_" ++ t) with
        | none =>
          rw [hg] at hb
          simp at hb
        | some sect0 =>
          rw [hg] at hb
          simp at hb
          simp only [hg]
          by_cases hnid : (jsSplit2 '/' id).1 = nid
          · simp only [hnid, hb]
            refine ⟨objSet es ((jsSplit2 '/' id).2.getD "") v, ?_, ?_⟩
            · simp [mGet_mSet_self, objGet_objSet_self, asObj]
            · by_cases hl1 : ((jsSplit2 '/' id).2.getD "") = lbl
              · rw [hl1]
                simp [objGet_objSet_self]
              · rw [objGet_objSet_ne _ _ _ _ (fun hh => hl1 hh.symm)]
                exact hl
          · cases hgo : objGet sect0 (jsSplit2 '/' id).1 with
            | some existing =>
              simp only [hgo]
              refine ⟨es, ?_, hl⟩
              simp only [mGet_mSet_self, Option.some_bind]
              rw [objGet_objSet_ne _ _ _ _ (fun hh => hnid hh.symm)]
              exact hb
            | none =>
              simp only [hgo]
              refine ⟨es, ?_, hl⟩
              simp only [mGet_mSet_self, Option.some_bind]
              rw [objGet_objSet_ne _ _ _ _ (fun hh => hnid hh.symm)]
              exact hb
      · cases hg : mGet resp ("labeled_" ++ t) with
        | none =>
          simp only [hg]
          exact labelPresent_mSet_ne h hnt2
        | some sect =>
          simp only [hg]
          cases hgo : objGet sect (jsSplit2 '/' id).1 with
          | some existing =>
            simp only [hgo]
            exact labelPresent_mSet_ne h hnt2
          | none =>
            simp only [hgo]
            exact labelPresent_mSet_ne h hnt2
    · have h2f : strContains id '/' = false := by simpa using h2
      simp only [h1f, h2f, Bool.false_eq_true, if_false]
      exact labelPresent_mSet_ne h hk

theorem foldl_preserves_label (l : List (String × String × JValue))
    {nt nid lbl : String} (H : ∀ tr ∈ l, tr.1 ≠ nt) :
    ∀ resp, labelPresent resp nt nid lbl →
      labelPresent (l.foldl mergeStep resp) nt nid lbl := by
  induction l with
  | nil => intro resp h; simpa using h
  | cons a l ih =>
    intro resp h
    simp only [List.foldl_cons]
    exact ih (fun tr htr => H tr (List.mem_cons_of_mem _ htr)) _
      (mergeStep_preserves_label a h (H a (List.mem_cons_self _ _)))

theorem foldl_mergeStep_label (l : List (String × String × JValue))
    (H : ∀ tr ∈ l, strStartsWith "labeled_" tr.1 = false) :
    ∀ resp, ∀ tr0 ∈ l, strContains tr0.2.1 '/' = true →
      strStartsWith reservedIdPref tr0.2.1 = false →
      labelPresent (l.foldl mergeStep resp) ("labeled_" ++ tr0.1)
        (jsSplit2 '/' tr0.2.1).1 ((jsSplit2 '/' tr0.2.1).2.getD "") := by
  induction l with
  | nil => intro resp tr0 h0; simp at h0
  | cons a l ih =>
    intro resp tr0 h0 hs hr
    simp only [List.foldl_cons]
    have Hne : ∀ nt2, strStartsWith "labeled_" nt2 = true →
        ∀ tr ∈ l, tr.1 ≠ nt2 := by
      intro nt2 hnt2 tr htr
      exact str_ne_of_pref hnt2 (H tr (List.mem_cons_of_mem _ htr))
    rcases List.mem_cons.mp h0 with h0 | h0
    · subst h0
      have hstep : mergeStep resp tr0 = processLabeledMetric resp tr0.1 tr0.2.1 tr0.2.2 := by
        obtain ⟨t, id, v⟩ := tr0
        simp only [mergeStep]
        simp [hr, hs]
      apply foldl_preserves_label l
        (Hne _ (strStartsWith_self_append "labeled_" tr0.1))
      rw [hstep]
      exact processLabeled_establishes resp tr0.1 tr0.2.1 tr0.2.2
    · exact ih (fun tr htr => H tr (List.mem_cons_of_mem _ htr))
        (mergeStep resp a) tr0 h0 hs hr

/-- A returned response of getPingMetrics is the merge of the flattened
corrected triples, projected to payloads. -/
theorem getPingMetrics_some (validate : String → JValue → Bool)
    (proj : String → JValue → JValue) (db : MetricsDatabase) (ping : String)
    (flag : Bool) (resp : Metrics)
    (h : (MetricsDatabase.getPingMetrics validate proj db ping flag).1 = some resp) :
    resp = createMetricsPayload proj ((pingTriples validate db ping).foldl mergeStep []) := by
  simp only [MetricsDatabase.getPingMetrics, mergeData] at h
  split at h
  · simp at h
  · simp only [pingTriples, List.foldl_append]
    simp at h
    exact h.symm

/-- A trivially accepting internal-representation validator, for concrete
snapshots. -/
def valTrue : String → JValue → Bool := fun _ _ => true

/-- The identity payload projection, for concrete snapshots. -/
def projId : String → JValue → JValue := fun _ v => v

/-- A store holding one labeled entry recorded under its subtype kind, as
the labeled-unfolding scenario of the spec. -/
def demoLabeledDb : MetricsDatabase :=
  ⟨[("baseline", .o [("counter", .o [("errors/net", .i 4)])])], [], []⟩

/-- The snapshot getPingMetrics returns for demoLabeledDb. -/
def demoLabeledResp : Metrics :=
  [("labeled_counter", [("errors", .o [("net", .i 4)])])]

/-- C3: a response of getPingMetrics never holds a metric identifier that
starts with the reserved prefix nor one that contains a slash, so a
stored slashed entry never appears under its original kind; and, when no
stored kind is itself already a labeled_ kind, every stored slashed
entry id/label that is not reserved appears in the response under
labeled_kind as the projected object holding that label. -/
theorem getPingMetrics_reserved_labeled (validate : String → JValue → Bool)
    (proj : String → JValue → JValue) (db : MetricsDatabase) (ping : String)
    (flag : Bool)
    (H : ∀ tr ∈ pingTriples validate db ping, strStartsWith "labeled_" tr.1 = false) :
    ∀ resp, (MetricsDatabase.getPingMetrics validate proj db ping flag).1 = some resp →
      (∀ p1 ∈ resp, ∀ q1 ∈ p1.2,
          strStartsWith reservedIdPref q1.1 = false ∧ strContains q1.1 '/' = false) ∧
      (∀ tr ∈ pingTriples validate db ping,
        strContains tr.2.1 '/' = true →
        strStartsWith reservedIdPref tr.2.1 = false →
        ∃ es,
          (mGet resp ("labeled_" ++ tr.1)).bind
              (fun sect => objGet sect (jsSplit2 '/' tr.2.1).1)
            = some (proj ("labeled_" ++ tr.1) (.o es)) ∧
          objGet es ((jsSplit2 '/' tr.2.1).2.getD "") ≠ none) := by
  intro resp hresp
  have hrespEq := getPingMetrics_some validate proj db ping flag resp hresp
  constructor
  · have hc := foldl_mergeStep_clean (pingTriples validate db ping) []
      (by intro p1 h1; simp at h1)
    have hp := payload_clean proj hc
    intro p1 hp1 q1 hq1
    rw [hrespEq] at hp1
    exact hp p1 hp1 q1 hq1
  · intro tr htr hs hr
    have hl := foldl_mergeStep_label (pingTriples validate db ping) H [] tr htr hs hr
    obtain ⟨es, hb, hlbl⟩ := hl
    refine ⟨es, ?_, hlbl⟩
    cases hg : mGet ((pingTriples validate db ping).foldl mergeStep [])
        ("labeled_" ++ tr.1) with
    | none =>
      rw [hg] at hb
      simp at hb
    | some sect =>
      rw [hg] at hb
      simp at hb
      rw [hrespEq, mGet_payload, hg]
      simp [objGet_map, hb]

/-- Witness for C3 on the labeled-unfolding scenario: the response of
getPingMetrics holds only clean identifiers, and the stored
counter entry errors/net surfaces as labeled_counter errors with the
label net. -/
theorem getPingMetrics_reserved_labeled_witness :
    (∀ p1 ∈ demoLabeledResp, ∀ q1 ∈ p1.2,
        strStartsWith reservedIdPref q1.1 = false ∧ strContains q1.1 '/' = false) ∧
    (∃ es,
        (mGet demoLabeledResp "labeled_counter").bind
            (fun sect => objGet sect (jsSplit2 '/' "errors/net").1)
          = some (projId "labeled_counter" (.o es)) ∧
        objGet es ((jsSplit2 '/' "errors/net").2.getD "") ≠ none) := by
  have H : ∀ tr ∈ pingTriples valTrue demoLabeledDb "baseline",
      strStartsWith "labeled_" tr.1 = false := by decide
  have h := getPingMetrics_reserved_labeled valTrue projId demoLabeledDb "baseline" false H
    demoLabeledResp rfl
  have hmem : ("counter", "errors/net", JValue.i 4) ∈
      pingTriples valTrue demoLabeledDb "baseline" := by
    rw [show pingTriples valTrue demoLabeledDb "baseline"
      = [("counter", "errors/net", JValue.i 4)] from rfl]
    exact List.mem_singleton.mpr rfl
  have h2 := h.2 ("counter", "errors/net", JValue.i 4) hmem (by decide) (by decide)
  exact ⟨h.1, h2⟩

/-- Witness for C8: on a concrete queue the pending test resolver is
resolved by the Clear processing. -/
theorem dispatcher_clear_spec_witness :
    ExecEvent.resolved 7 ∈
      (executeRun 5 (Command.clear ::
        [Command.task 1, Command.testTask 2 7, Command.persistentTask 3])).1 := by
  obtain ⟨q1, _, _, _, heq, _⟩ :=
    dispatcher_clear_spec 4 [Command.task 1, Command.testTask 2 7, Command.persistentTask 3]
  rw [show (executeRun 5 (Command.clear ::
      [Command.task 1, Command.testTask 2 7, Command.persistentTask 3])).1
    = ((resolversOf [Command.task 1, Command.testTask 2 7, Command.persistentTask 3]).map
        ExecEvent.resolved ++ (executeRun 4 q1).1) from congrArg Prod.fst heq]
  simp [resolversOf]

end GleanSpec
